import Mathlib

/-!
Verification development for the pylbm `Domain` construction core
(`pylbm/domain.py`): halo/coordinate layout, primary-box boundary
stamping (`Domain.__add_init`), obstacle folding (`Domain.__add_elem`)
and the label query surface, embedded shallowly for the one-dimensional
instantiation of the (dimension-generic) numpy code.  Machine floats are
modelled by exact rationals; numpy arrays by total functions on integer
node indices together with the meaningful index range `[0, nloc + 2*vmax)`;
Python slice endpoint resolution (negative values count from the end,
clamped) is modelled explicitly by `pyResolve`.
-/

namespace PyLBM

/-- Value used in the fluid domain, `self.valin = 999` in `Domain.__init__`. -/
def valin : ℤ := 999

/-- Value used in the solid domain, `self.valout = -1` in `Domain.__init__`. -/
def valout : ℤ := -1

/-- Truncation toward zero: the effect of `np.array(x, np.int)` on a float. -/
def truncQ (q : ℚ) : ℤ := if 0 ≤ q then ⌊q⌋ else ⌈q⌉

/-- Python slice endpoint resolution on an axis of length `n`: a negative
endpoint counts from the end and the result is clamped into `[0, n]`. -/
def pyResolve (n v : ℤ) : ℤ := if v < 0 then max 0 (v + n) else min v n

/-- Modelled from the spec: the geometric-primitive contract of spec §6 (the
element classes of `pylbm.elements` are not among the analysed sources).
An element carries its fluid/solid tag and label, an axis-aligned bounding
box `[bl, ur]` (`get_bounds`), a point-inside test, and the ray query
`distance(point, displacement)` returning a crossing fraction (nonpositive
when no boundary is crossed within one step) and a boundary label. -/
structure Elem where
  isfluid : Bool
  label : ℤ
  bl : ℚ
  ur : ℚ
  point_inside : ℚ → Bool
  distance : ℚ → ℚ → ℚ × ℤ

/-- The fixed layout data of a local 1D domain: halo width `vmax` (the
stencil's maximal velocity magnitude), interior size `nloc`, space step
`dx`, first halo coordinate `x0 = coords_halo[0]`, and the unique velocity
x-components `uvx` of the stencil. -/
structure Cfg where
  vmax : ℕ
  nloc : ℕ
  dx : ℚ
  x0 : ℚ
  uvx : List ℤ

/-- Number of nodes of the halo-inclusive local array. -/
def Cfg.size (c : Cfg) : ℤ := (c.nloc : ℤ) + 2 * c.vmax

/-- Coordinate of halo node `j`: `coords_halo` is an arithmetic progression
of step `dx` starting at `x0`. -/
def Cfg.coords (c : Cfg) (j : ℤ) : ℚ := c.x0 + (j : ℚ) * c.dx

/-- The mutable construction state: the three arrays of `Domain`. -/
@[ext]
structure St where
  in_or_out : ℤ → ℤ
  distance : ℕ → ℤ → ℚ
  flag : ℕ → ℤ → ℤ

/-! ### Obstacle folding: `Domain.__add_elem`

`tmp = np.array((elem_bl - phys_bl)/self.dx, np.int) - vmax;
nmin = np.maximum(vmax, tmp)` and
`tmp = np.array((elem_ur - phys_bl)/self.dx, np.int) + vmax + 1;
nmax = np.minimum(vmax + self.shape_in, tmp)`. -/

/-- Lower end of the element's working sub-box, before slice resolution. -/
def nminE (c : Cfg) (e : Elem) : ℤ :=
  max (c.vmax : ℤ) (truncQ ((e.bl - c.x0) / c.dx) - c.vmax)

/-- Upper end of the element's working sub-box, before slice resolution. -/
def nmaxE (c : Cfg) (e : Elem) : ℤ :=
  min ((c.vmax : ℤ) + c.nloc) (truncQ ((e.ur - c.x0) / c.dx) + c.vmax + 1)

/-- Resolved start of `space_slice = slice(nmin, nmax)`. -/
def raE (c : Cfg) (e : Elem) : ℤ := pyResolve c.size (nminE c e)

/-- Resolved stop of `space_slice = slice(nmin, nmax)`. -/
def rbE (c : Cfg) (e : Elem) : ℤ := pyResolve c.size (nmaxE c e)

/-- Resolved start of the window shifted by the velocity,
`slice(nmin + vk, nmax + vk)`. -/
def raS (c : Cfg) (e : Elem) (vk : ℤ) : ℤ := pyResolve c.size (nminE c e + vk)

/-- Resolved stop of the shifted window. -/
def rbS (c : Cfg) (e : Elem) (vk : ℤ) : ℤ := pyResolve c.size (nmaxE c e + vk)

/-- Length of the resolved element sub-box (the views `ioo_view`,
`dist_view[k]`, `flag_view[k]` all have this length). -/
def lenSub (c : Cfg) (e : Elem) : ℤ := max 0 (rbE c e - raE c e)

/-- Length of the resolved shifted window, i.e. `out_cells.size`. -/
def lenShift (c : Cfg) (e : Elem) (vk : ℤ) : ℤ := max 0 (rbS c e vk - raS c e vk)

/-- Membership of node `j` in the resolved element sub-box. -/
abbrev inSub (c : Cfg) (e : Elem) (j : ℤ) : Prop := raE c e ≤ j ∧ j < rbE c e

/-- The in/out classification after folding the element:
`ioo_view[ind_solid] = self.valout` for a solid element,
`ioo_view[ind_fluid] = self.valin` for a fluid one, where the inside mask
comes from `elem.point_inside(grid)` on the sub-box. -/
def iooStep (c : Cfg) (e : Elem) (s : St) : ℤ → ℤ := fun j =>
  if inSub c e j ∧ e.point_inside (c.coords j) = true then
    (if e.isfluid then valin else valout)
  else s.in_or_out j

/-- The crossing fraction `alpha` returned by
`elem.distance(grid, self.dx*vk, 1.)` at node `j`. -/
def alphaE (c : Cfg) (e : Elem) (vk j : ℤ) : ℚ :=
  (e.distance (c.coords j) (c.dx * (vk : ℚ))).1

/-- The boundary label `border` returned by the same query. -/
def borderE (c : Cfg) (e : Elem) (vk j : ℤ) : ℤ :=
  (e.distance (c.coords j) (c.dx * (vk : ℚ))).2

/-- `out_cells` at sub-box node `j`: numpy aligns the shifted window with
the sub-box by offset, so position `j` of the sub-box is paired with
position `raS + (j - raE)` of the halo array. -/
abbrev outCell (c : Cfg) (e : Elem) (s : St) (vk j : ℤ) : Prop :=
  iooStep c e s (raS c e vk + (j - raE c e)) = valout

/-- The `out_cells` gate: the conjunct is applied only
`if out_cells.size != 0`, i.e. the candidate mask requires `out_cells`
exactly when the shifted window is nonempty. -/
abbrev ocGate (c : Cfg) (e : Elem) (s : St) (vk j : ℤ) : Prop :=
  lenShift c e vk = 0 ∨ outCell c e s vk j

/-- `border_to_interior` for a fluid element: nodes of the sub-box that are
fluid in the updated classification and whose shifted partner is not out,
`np.logical_and(np.logical_not(out_cells), indfluidinbox)`. -/
abbrev toInterior (c : Cfg) (e : Elem) (s : St) (vk j : ℤ) : Prop :=
  ¬ outCell c e s vk j ∧ iooStep c e s j = valin

/-- The `distance` array after folding one element, velocity row `k`.
Mirrors the `for k in range(self.stencil.unvtot)` body: rows with zero
velocity are untouched; on the sub-box the fluid/solid reset is applied
(`dist_view[k][border_to_interior] = valin` resp.
`dist_view[k][ind_solid] = valin`) and then `alpha` is written at the
candidate nodes passing the merge comparison
(`alpha < dist` for solid, `alpha > dist or dist == valin` for fluid). -/
def distStep (c : Cfg) (e : Elem) (s : St) (k : ℕ) (j : ℤ) : ℚ :=
  match c.uvx[k]? with
  | none => s.distance k j
  | some vk =>
    if vk = 0 then s.distance k j
    else if inSub c e j then
      if e.isfluid then
        let d1 := if toInterior c e s vk j then (valin : ℚ) else s.distance k j
        if (0 < alphaE c e vk j ∧ e.point_inside (c.coords j) = true ∧
              ocGate c e s vk j) ∧
            (d1 < alphaE c e vk j ∨ d1 = (valin : ℚ)) then
          alphaE c e vk j
        else d1
      else
        let d1 := if e.point_inside (c.coords j) = true then (valin : ℚ)
          else s.distance k j
        if (0 < alphaE c e vk j ∧ e.point_inside (c.coords j) = false ∧
              ocGate c e s vk j) ∧
            alphaE c e vk j < d1 then
          alphaE c e vk j
        else d1
    else s.distance k j

/-- The `flag` array after folding one element, velocity row `k`: the reset
mirrors the distance reset, and `border` is written at exactly the indices
where the distance merge comparison succeeded (the comparison is on the
distance values). -/
def flagStep (c : Cfg) (e : Elem) (s : St) (k : ℕ) (j : ℤ) : ℤ :=
  match c.uvx[k]? with
  | none => s.flag k j
  | some vk =>
    if vk = 0 then s.flag k j
    else if inSub c e j then
      if e.isfluid then
        let d1 := if toInterior c e s vk j then (valin : ℚ) else s.distance k j
        let f1 := if toInterior c e s vk j then valin else s.flag k j
        if (0 < alphaE c e vk j ∧ e.point_inside (c.coords j) = true ∧
              ocGate c e s vk j) ∧
            (d1 < alphaE c e vk j ∨ d1 = (valin : ℚ)) then
          borderE c e vk j
        else f1
      else
        let d1 := if e.point_inside (c.coords j) = true then (valin : ℚ)
          else s.distance k j
        let f1 := if e.point_inside (c.coords j) = true then valin
          else s.flag k j
        if (0 < alphaE c e vk j ∧ e.point_inside (c.coords j) = false ∧
              ocGate c e s vk j) ∧
            alphaE c e vk j < d1 then
          borderE c e vk j
        else f1
    else s.flag k j

/-- `Domain.__add_elem`: fold one element into the running state. -/
def addElem (c : Cfg) (e : Elem) (s : St) : St :=
  { in_or_out := iooStep c e s
    distance := distStep c e s
    flag := flagStep c e s }

/-- Faithfulness condition of this model: at each nonzero velocity the
resolved shifted window either has the length of the sub-box, or (for a
solid element) is empty so the `out_cells` conjunct is skipped.  Outside
this condition the real code raises a numpy broadcasting error (see the C8
analysis below), so no array state is produced at all. -/
def addElemOkB (c : Cfg) (e : Elem) : Bool :=
  (List.range c.uvx.length).all fun k =>
    match c.uvx[k]? with
    | none => true
    | some vk =>
      vk == 0 || lenShift c e vk == lenSub c e ||
        (!e.isfluid && lenShift c e vk == 0)

/-! ### Primary-box stamping: `Domain.__add_init` -/

/-- `in_or_out` after `__add_init`: everything `valout`, then the interior
sub-array `[vmax:-vmax]` set to `valin`. -/
def iooInit (c : Cfg) : ℤ → ℤ := fun j =>
  if (c.vmax : ℤ) ≤ j ∧ j < (c.vmax : ℤ) + c.nloc then valin else valout

/-- `distance` after `__add_init` (1D): the array starts at `valin`
everywhere; for a velocity `vk < 0` whose left-face label is not the
interface sentinel `-2`, interior offsets `i = 0 .. -vk-1` from the left
face receive `-(i+.5)/vk`; for `vk > 0` whose right-face label is not
`-2`, interior offsets `i = 0 .. vk-1` from the right face receive
`(i+.5)/vk`.  (In 1D the `np.where` guard of `new_indices` selects the
whole written row, each node being written at most once per row.) -/
def distInit (c : Cfg) (labL labR : ℤ) (k : ℕ) (j : ℤ) : ℚ :=
  match c.uvx[k]? with
  | none => (valin : ℚ)
  | some v =>
    if v < 0 ∧ labL ≠ -2 ∧ (c.vmax : ℤ) ≤ j ∧ j < (c.vmax : ℤ) + (-v) then
      (((j : ℚ) - (c.vmax : ℚ)) + 1/2) / (-(v : ℚ))
    else if 0 < v ∧ labR ≠ -2 ∧ (c.vmax : ℤ) + c.nloc - v ≤ j ∧
        j < (c.vmax : ℤ) + c.nloc then
      ((((c.vmax : ℚ) + (c.nloc : ℚ) - 1 - (j : ℚ))) + 1/2) / (v : ℚ)
    else (valin : ℚ)

/-- `flag` after `__add_init` (1D): the face label is written at exactly
the nodes where the crossing fraction is written. -/
def flagInit (c : Cfg) (labL labR : ℤ) (k : ℕ) (j : ℤ) : ℤ :=
  match c.uvx[k]? with
  | none => valin
  | some v =>
    if v < 0 ∧ labL ≠ -2 ∧ (c.vmax : ℤ) ≤ j ∧ j < (c.vmax : ℤ) + (-v) then
      labL
    else if 0 < v ∧ labR ≠ -2 ∧ (c.vmax : ℤ) + c.nloc - v ≤ j ∧
        j < (c.vmax : ℤ) + c.nloc then
      labR
    else valin

/-- The state right after array allocation and `__add_init`. -/
def addInit (c : Cfg) (labL labR : ℤ) : St :=
  { in_or_out := iooInit c
    distance := distInit c labL labR
    flag := flagInit c labL labR }

/-! ### Coordinates and construction pipeline -/

/-- `global_size[0] = (bounds[0][1] - bounds[0][0])/dx` of `create_coords`. -/
def globalSizeQ (xmin xmax dx : ℚ) : ℚ := (xmax - xmin) / dx

/-- Halo-inclusive coordinate list built by `create_coords`
(`np.linspace` of `region_size + 2*halo_size` points at spacing `dx`,
starting `dx*(vmax - 0.5)` below the interior start). -/
def coordsHalo (c : Cfg) : List ℚ :=
  (List.range (c.nloc + 2 * c.vmax)).map fun j : ℕ => c.x0 + (j : ℚ) * c.dx

/-- Interior coordinates: `coords_halo[halo:-halo]`. -/
def coordsIn (c : Cfg) : List ℚ :=
  ((coordsHalo c).take (c.nloc + c.vmax)).drop c.vmax

/-- `Domain.__init__` for a single process (the partitioner then assigns
the whole index range, so no face label is overridden to the interface
sentinel): validate the box/space-step ratio as in `create_coords`
(`sys.exit` on a non-integer ratio, before any of the three arrays is
allocated), then allocate and stamp the box, then fold the elements in
list order. -/
def domainInit (xmin xmax dx : ℚ) (vmax : ℕ) (uvx : List ℤ)
    (labL labR : ℤ) (elems : List Elem) : Option (Cfg × St) :=
  if (globalSizeQ xmin xmax dx).den = 1 then
    let c : Cfg :=
      ⟨vmax, (globalSizeQ xmin xmax dx).num.toNat, dx,
        xmin - dx * ((vmax : ℚ) - 1/2), uvx⟩
    some (c, elems.foldl (fun s e => addElem c e s) (addInit c labL labR))
  else none

/-- Modelled from the spec: `Geometry.list_of_elements_labels` (the
`pylbm.geometry` module is not among the analysed sources); per spec §4.4
it yields the labels of all obstacles.  `Domain.list_of_labels` then
returns `np.union1d(np.unique(self.box_label), ...)`, modelled as the
deduplicated union. -/
def listOfLabels (boxLabel : List ℤ) (elems : List Elem) : List ℤ :=
  (boxLabel ++ elems.map Elem.label).dedup

/-- The interior indices (per axis, 1D) that `__add_init` writes through an
integer index: offsets `i = 0 .. |v|-1` from the left face for `v < 0`
(index `i`), from the right face for `v > 0` (Python index `-i-1`, i.e.
logical index `nloc - 1 - i`). -/
def addInitAccessList (nloc : ℕ) (uvx : List ℤ) : List ℤ :=
  (uvx.map fun v =>
    if v < 0 then (List.range v.natAbs).map fun i : ℕ => (i : ℤ)
    else
      (List.range v.natAbs).map fun i : ℕ =>
        (nloc : ℤ) - 1 - (i : ℤ)).flatten

/-! ### A concrete element: 1D segment

Modelled from the spec: a closed 1D segment `[bl, ur]` satisfying the
geometric-primitive contract of spec §6, used as concrete witness
material (the element classes themselves are external collaborators). -/

/-- First crossing fraction of the boundary of `[bl, ur]` from `x` along
displacement `d`, within one step; `0` when no boundary is crossed. -/
def segAlpha (bl ur x d : ℚ) : ℚ :=
  if d = 0 then 0
  else
    let t1 := (bl - x) / d
    let t2 := (ur - x) / d
    if (0 < t1 ∧ t1 ≤ 1) ∧ (0 < t2 ∧ t2 ≤ 1) then min t1 t2
    else if 0 < t1 ∧ t1 ≤ 1 then t1
    else if 0 < t2 ∧ t2 ≤ 1 then t2
    else 0

/-- The segment element. -/
def segElem (fl : Bool) (lab : ℤ) (bl ur : ℚ) : Elem :=
  { isfluid := fl
    label := lab
    bl := bl
    ur := ur
    point_inside := fun x => decide (bl ≤ x ∧ x ≤ ur)
    distance := fun x d => (segAlpha bl ur x d, lab) }

/-! ### Concrete instances used as witness material -/

/-- A small concrete layout: the box `[0, 1]` with `dx = 1/4`, a single
process, stencil velocities `±1` (so `vmax = 1`, four interior nodes). -/
def c0 : Cfg := ⟨1, 4, 1/4, -(1/8), [1, -1]⟩

/-- A solid segment obstacle `[11/20, 7/10]` with label 5; it contains the
interior node at `5/8`. -/
def eA : Elem := segElem false 5 (11/20) (7/10)

/-- A state with a stored distance `7/10` (tying `alpha` of `eA`) at row 0,
node 2, and a stored boundary record at row 1, node 3. -/
def s1w : St :=
  { in_or_out := iooInit c0
    distance := fun k j =>
      if k = 0 ∧ j = 2 then 7/10 else if k = 1 ∧ j = 3 then 1/4 else 999
    flag := fun k j =>
      if k = 0 ∧ j = 2 then 3 else if k = 1 ∧ j = 3 then 3 else 999 }

/-- A fluid segment obstacle `[33/100, 21/50]` with label 9, containing
the interior node at `3/8`. -/
def eF : Elem := segElem true 9 (33/100) (21/50)

/-- A state whose nodes 2 and 3 are solid, with a stored boundary record
at row 0, node 1. -/
def s2w : St :=
  { in_or_out := fun j => if j = 2 ∨ j = 3 then valout else iooInit c0 j
    distance := fun k j => if k = 0 ∧ j = 1 then 1/2 else 999
    flag := fun k j => if k = 0 ∧ j = 1 then 3 else 999 }

/-- A second solid segment obstacle `[1/2, 4/5]` with label 7, overlapping
`eA` and also reached from node 2 along velocity `+1`. -/
def eB : Elem := segElem false 7 (1/2) (4/5)

/-- A state whose node 3 is solid, with pristine sentinel arrays. -/
def s4w : St :=
  { in_or_out := fun j => if j = 3 then valout else iooInit c0 j
    distance := fun _ _ => 999
    flag := fun _ _ => 999 }

/-- A solid segment obstacle lying wholly to the left of the halo grid of
`c0`, even after inflating its bounding box by the halo width. -/
def e8 : Elem := segElem false 5 (-(4/5)) (-(7/10))

/-- A thin solid segment obstacle `[3/10, 7/20]` with label 7: it lies
between the grid nodes of `c0`, so it contains no node, and every ray
crossing it lands on a fluid node and is therefore never recorded. -/
def e9 : Elem := segElem false 7 (3/10) (7/20)

/-- Whether the label `l` occurs anywhere in the final `flag` arrays,
i.e. whether the label is reachable by some velocity ray. -/
def flagHasB (c : Cfg) (st : St) (l : ℤ) : Bool :=
  (List.range c.uvx.length).any fun k =>
    (List.range (c.nloc + 2 * c.vmax)).any fun j : ℕ =>
      st.flag k (j : ℤ) == l

/-- The domain built over the box `[0,1]`, `dx = 1/4`, velocities `±1`,
box labels 0/0, with the single obstacle `e9`. -/
def dom9 : Option (Cfg × St) := domainInit 0 1 (1/4) 1 [1, -1] 0 0 [e9]

/-- Whether the obstacle label 7 of `e9` is reachable in `dom9`. -/
def reach9 : Bool :=
  match dom9 with
  | none => false
  | some p => flagHasB p.1 p.2 7


/-! ### Resolution lemmas for the element window -/

theorem vmax_le_nminE (c : Cfg) (e : Elem) : (c.vmax : ℤ) ≤ nminE c e :=
  le_max_left _ _

theorem nmaxE_le (c : Cfg) (e : Elem) : nmaxE c e ≤ (c.vmax : ℤ) + c.nloc :=
  min_le_left _ _

theorem pyResolve_id {n v : ℤ} (h0 : 0 ≤ v) (h1 : v ≤ n) :
    pyResolve n v = v := by
  unfold pyResolve
  rw [if_neg (by omega)]
  omega

/-- When the raw sub-box is nonempty and its stop is nonnegative, Python's
slice resolution is the identity on all four endpoints and the shifted
window is the sub-box translated by `vk`. -/
theorem window_resolve (c : Cfg) (e : Elem) (vk : ℤ)
    (hvm : vk.natAbs ≤ c.vmax) (hnm : 0 ≤ nmaxE c e)
    (hlt : nminE c e < nmaxE c e) :
    raE c e = nminE c e ∧ rbE c e = nmaxE c e ∧
    raS c e vk = nminE c e + vk ∧ rbS c e vk = nmaxE c e + vk := by
  have h1 := vmax_le_nminE c e
  have h2 := nmaxE_le c e
  have hsz : c.size = (c.nloc : ℤ) + 2 * c.vmax := rfl
  exact ⟨pyResolve_id (by omega) (by omega), pyResolve_id (by omega) (by omega),
    pyResolve_id (by omega) (by omega), pyResolve_id (by omega) (by omega)⟩

theorem window_len (c : Cfg) (e : Elem) (vk : ℤ)
    (hvm : vk.natAbs ≤ c.vmax) (hnm : 0 ≤ nmaxE c e)
    (hlt : nminE c e < nmaxE c e) :
    lenShift c e vk = lenSub c e ∧ lenSub c e ≠ 0 := by
  obtain ⟨ha, hb, hc, hd⟩ := window_resolve c e vk hvm hnm hlt
  unfold lenShift lenSub
  rw [ha, hb, hc, hd]
  omega

theorem iooStep_keeps_out (c : Cfg) (e : Elem) (s : St) (t : ℤ)
    (hfl : e.isfluid = false) (h : s.in_or_out t = valout) :
    iooStep c e s t = valout := by
  unfold iooStep
  by_cases hcond : inSub c e t ∧ e.point_inside (c.coords t) = true
  · rw [if_pos hcond, if_neg (by simp [hfl])]
  · rw [if_neg hcond]
    exact h

/-- Evaluation of one solid fold at a candidate node: the stored
distance/flag are replaced exactly when `alpha` is strictly smaller. -/
theorem solidFoldEval (c : Cfg) (e : Elem) (s : St) (k : ℕ) (vk j : ℤ)
    (hfl : e.isfluid = false) (hk : c.uvx[k]? = some vk) (hvk : vk ≠ 0)
    (hvm : vk.natAbs ≤ c.vmax) (hnm : 0 ≤ nmaxE c e)
    (hj1 : nminE c e ≤ j) (hj2 : j < nmaxE c e)
    (hins : e.point_inside (c.coords j) = false)
    (hal : 0 < alphaE c e vk j)
    (hout : iooStep c e s (j + vk) = valout) :
    distStep c e s k j =
      (if alphaE c e vk j < s.distance k j then alphaE c e vk j
        else s.distance k j) ∧
    flagStep c e s k j =
      (if alphaE c e vk j < s.distance k j then borderE c e vk j
        else s.flag k j) := by
  obtain ⟨hra, hrb, hrc, hrd⟩ :=
    window_resolve c e vk hvm hnm (lt_of_le_of_lt hj1 hj2)
  have hin : inSub c e j := ⟨hra ▸ hj1, hrb ▸ hj2⟩
  have hoc : outCell c e s vk j := by
    show iooStep c e s (raS c e vk + (j - raE c e)) = valout
    rw [hrc, hra]
    have : nminE c e + vk + (j - nminE c e) = j + vk := by ring
    rw [this]
    exact hout
  have hgate : ocGate c e s vk j := Or.inr hoc
  have hflb : ¬ (e.isfluid = true) := by simp [hfl]
  have hinsb : ¬ (e.point_inside (c.coords j) = true) := by simp [hins]
  have hcond : 0 < alphaE c e vk j ∧ e.point_inside (c.coords j) = false ∧
      ocGate c e s vk j := ⟨hal, hins, hgate⟩
  constructor
  · simp only [distStep, hk, if_neg hvk, if_pos hin, if_neg hflb,
      if_neg hinsb]
    by_cases hlt : alphaE c e vk j < s.distance k j
    · rw [if_pos ⟨hcond, hlt⟩, if_pos hlt]
    · rw [if_neg (by tauto), if_neg hlt]
  · simp only [flagStep, hk, if_neg hvk, if_pos hin, if_neg hflb,
      if_neg hinsb]
    by_cases hlt : alphaE c e vk j < s.distance k j
    · rw [if_pos ⟨hcond, hlt⟩, if_pos hlt]
    · rw [if_neg (by tauto), if_neg hlt]

/-- Evaluation of one solid fold at a node inside the element: the
distance/flag row is reset to the fluid sentinel. -/
theorem solidFoldReset (c : Cfg) (e : Elem) (s : St) (k : ℕ) (vk j : ℤ)
    (hfl : e.isfluid = false) (hk : c.uvx[k]? = some vk) (hvk : vk ≠ 0)
    (hvm : vk.natAbs ≤ c.vmax) (hnm : 0 ≤ nmaxE c e)
    (hj1 : nminE c e ≤ j) (hj2 : j < nmaxE c e)
    (hins : e.point_inside (c.coords j) = true) :
    distStep c e s k j = (valin : ℚ) ∧ flagStep c e s k j = valin := by
  obtain ⟨hra, hrb, hrc, hrd⟩ :=
    window_resolve c e vk hvm hnm (lt_of_le_of_lt hj1 hj2)
  have hin : inSub c e j := ⟨hra ▸ hj1, hrb ▸ hj2⟩
  have hflb : ¬ (e.isfluid = true) := by simp [hfl]
  have hnc : ¬ ((0 < alphaE c e vk j ∧ e.point_inside (c.coords j) = false ∧
      ocGate c e s vk j) ∧
      alphaE c e vk j < if e.point_inside (c.coords j) = true then (valin : ℚ)
        else s.distance k j) := by
    rintro ⟨⟨-, hf, -⟩, -⟩
    rw [hins] at hf
    exact Bool.noConfusion hf
  constructor
  · simp only [distStep, hk, if_neg hvk, if_pos hin, if_neg hflb]
    rw [if_neg hnc, if_pos hins]
  · simp only [flagStep, hk, if_neg hvk, if_pos hin, if_neg hflb]
    rw [if_neg hnc, if_pos hins]

/-! ### Claim C1 -/

/-- C1: When folding a solid obstacle, for every velocity row with a
nonzero unique velocity, nodes classified inside the obstacle first get
their distance/flag reset to the IN-sentinel; then at each candidate node
(`alpha > 0`, node classified fluid, landing in an `out_cells` node after
the step) the new crossing `alpha`/`border` replaces the stored
distance/flag if and only if `alpha` is strictly smaller than the stored
distance; a tie never triggers replacement. -/
theorem spec_C1_solid_merge (c : Cfg) (e : Elem) (s : St) (k : ℕ) (vk : ℤ)
    (hfl : e.isfluid = false) (hk : c.uvx[k]? = some vk) (hvk : vk ≠ 0)
    (hvm : vk.natAbs ≤ c.vmax) (hnm : 0 ≤ nmaxE c e) :
    (∀ j : ℤ, nminE c e ≤ j → j < nmaxE c e →
        e.point_inside (c.coords j) = true →
        distStep c e s k j = (valin : ℚ) ∧ flagStep c e s k j = valin) ∧
    (∀ j : ℤ, nminE c e ≤ j → j < nmaxE c e →
        e.point_inside (c.coords j) = false →
        0 < alphaE c e vk j →
        iooStep c e s (j + vk) = valout →
        ((alphaE c e vk j < s.distance k j →
            distStep c e s k j = alphaE c e vk j ∧
            flagStep c e s k j = borderE c e vk j) ∧
          (¬ alphaE c e vk j < s.distance k j →
            distStep c e s k j = s.distance k j ∧
            flagStep c e s k j = s.flag k j))) := by
  constructor
  · intro j hj1 hj2 hins
    exact solidFoldReset c e s k vk j hfl hk hvk hvm hnm hj1 hj2 hins
  · intro j hj1 hj2 hins hal hout
    obtain ⟨hd, hf⟩ :=
      solidFoldEval c e s k vk j hfl hk hvk hvm hnm hj1 hj2 hins hal hout
    constructor
    · intro hlt
      rw [hd, hf, if_pos hlt, if_pos hlt]
      exact ⟨rfl, rfl⟩
    · intro hlt
      rw [hd, hf, if_neg hlt, if_neg hlt]
      exact ⟨rfl, rfl⟩

/-! ### Claim C2 -/

theorem truncQ_le {q : ℚ} {j : ℤ} (h : q ≤ (j : ℚ)) : truncQ q ≤ j := by
  unfold truncQ
  split_ifs
  · have h2 := Int.floor_mono h
    simpa using h2
  · have h2 := Int.ceil_mono h
    simpa using h2

theorem le_truncQ {q : ℚ} {j : ℤ} (h : (j : ℚ) ≤ q) : j ≤ truncQ q := by
  unfold truncQ
  split_ifs
  · exact Int.le_floor.mpr h
  · have h2 := Int.ceil_mono h
    simpa using h2

/-- A node whose coordinate lies in the element's bounding box, and which
is an interior node, lies in the element's working window. -/
theorem footprint_in_window (c : Cfg) (e : Elem) (j : ℤ) (hdx : 0 < c.dx)
    (hbl : e.bl ≤ c.coords j) (hur : c.coords j ≤ e.ur)
    (hjlo : (c.vmax : ℤ) ≤ j) (hjhi : j < (c.vmax : ℤ) + c.nloc) :
    nminE c e ≤ j ∧ j < nmaxE c e := by
  constructor
  · apply max_le hjlo
    have h1 : (e.bl - c.x0) / c.dx ≤ (j : ℚ) := by
      rw [div_le_iff₀ hdx]
      unfold Cfg.coords at hbl
      linarith
    have h2 := truncQ_le h1
    omega
  · apply lt_min (by omega)
    have h1 : (j : ℚ) ≤ (e.ur - c.x0) / c.dx := by
      rw [le_div_iff₀ hdx]
      unfold Cfg.coords at hur
      linarith
    have h2 := le_truncQ h1
    omega

theorem coords_mono (c : Cfg) (hdx : 0 < c.dx) {a b : ℤ}
    (h : c.coords a ≤ c.coords b) : a ≤ b := by
  unfold Cfg.coords at h
  have h2 : (a : ℚ) ≤ (b : ℚ) := le_of_mul_le_mul_right (by linarith) hdx
  exact_mod_cast h2

/-- C2: When folding a fluid obstacle, for every velocity row with nonzero
unique velocity: nodes that are fluid after the classification update and
whose landing node is not `out` get their distance/flag reset to the
IN-sentinel; at each candidate node (`alpha > 0`, inside the fluid
element, landing `out`) the crossing replaces the stored values if and
only if `alpha` is strictly greater than the stored distance or the
stored distance is the IN-sentinel; and a fluid obstacle lying in the box
interior sets `in_or_out` to IN at every node of its footprint. -/
theorem spec_C2_fluid_merge (c : Cfg) (e : Elem) (s : St) (k : ℕ) (vk : ℤ)
    (hfl : e.isfluid = true) (hk : c.uvx[k]? = some vk) (hvk : vk ≠ 0)
    (hvm : vk.natAbs ≤ c.vmax) (hdx : 0 < c.dx)
    (hcont : ∀ x : ℚ, e.point_inside x = true → e.bl ≤ x ∧ x ≤ e.ur)
    (hblin : c.coords c.vmax ≤ e.bl)
    (hurin : e.ur ≤ c.coords ((c.vmax : ℤ) + c.nloc - 1)) :
    (∀ j : ℤ, e.point_inside (c.coords j) = true →
        iooStep c e s j = valin) ∧
    (∀ j : ℤ, nminE c e ≤ j → j < nmaxE c e →
        iooStep c e s (j + vk) ≠ valout → iooStep c e s j = valin →
        distStep c e s k j = (valin : ℚ) ∧ flagStep c e s k j = valin) ∧
    (∀ j : ℤ, nminE c e ≤ j → j < nmaxE c e →
        e.point_inside (c.coords j) = true → 0 < alphaE c e vk j →
        iooStep c e s (j + vk) = valout →
        ((s.distance k j < alphaE c e vk j ∨ s.distance k j = (valin : ℚ) →
            distStep c e s k j = alphaE c e vk j ∧
            flagStep c e s k j = borderE c e vk j) ∧
          (¬ (s.distance k j < alphaE c e vk j ∨
              s.distance k j = (valin : ℚ)) →
            distStep c e s k j = s.distance k j ∧
            flagStep c e s k j = s.flag k j))) := by
  refine ⟨?_, ?_, ?_⟩
  · intro j hins
    obtain ⟨hb1, hb2⟩ := hcont _ hins
    have hjlo : (c.vmax : ℤ) ≤ j :=
      coords_mono c hdx (le_trans hblin hb1)
    have hjhi : j < (c.vmax : ℤ) + c.nloc := by
      have := coords_mono c hdx (le_trans hb2 hurin)
      omega
    obtain ⟨hw1, hw2⟩ := footprint_in_window c e j hdx hb1 hb2 hjlo hjhi
    have hnm0 : 0 ≤ nmaxE c e := by
      have := vmax_le_nminE c e
      omega
    obtain ⟨hra, hrb, -, -⟩ :=
      window_resolve c e vk hvm hnm0 (lt_of_le_of_lt hw1 hw2)
    have hin : inSub c e j := ⟨hra ▸ hw1, hrb ▸ hw2⟩
    unfold iooStep
    rw [if_pos ⟨hin, hins⟩, if_pos hfl]
  · intro j hj1 hj2 hnout hfluid
    have hnm0 : 0 ≤ nmaxE c e := by
      have := vmax_le_nminE c e
      omega
    obtain ⟨hra, hrb, hrc, hrd⟩ :=
      window_resolve c e vk hvm hnm0 (lt_of_le_of_lt hj1 hj2)
    have hin : inSub c e j := ⟨hra ▸ hj1, hrb ▸ hj2⟩
    obtain ⟨hlen, hlen0⟩ :=
      window_len c e vk hvm hnm0 (lt_of_le_of_lt hj1 hj2)
    have hnoc : ¬ outCell c e s vk j := by
      show ¬ iooStep c e s (raS c e vk + (j - raE c e)) = valout
      rw [hrc, hra]
      have harith : nminE c e + vk + (j - nminE c e) = j + vk := by ring
      rw [harith]
      exact hnout
    have hbti : toInterior c e s vk j := ⟨hnoc, hfluid⟩
    have hng : ¬ ocGate c e s vk j := by
      rintro (h0 | hoc)
      · rw [hlen] at h0
        exact hlen0 h0
      · exact hnoc hoc
    constructor
    · simp only [distStep, hk, if_neg hvk, if_pos hin, if_pos hfl]
      rw [if_pos hbti, if_neg
        (fun hcc : (_ ∧ _ ∧ ocGate c e s vk j) ∧ _ => hng hcc.1.2.2)]
    · simp only [flagStep, hk, if_neg hvk, if_pos hin, if_pos hfl]
      rw [if_pos hbti, if_neg
        (fun hcc : (_ ∧ _ ∧ ocGate c e s vk j) ∧ _ => hng hcc.1.2.2),
        if_pos hbti]
  · intro j hj1 hj2 hins hal hout
    have hnm0 : 0 ≤ nmaxE c e := by
      have := vmax_le_nminE c e
      omega
    obtain ⟨hra, hrb, hrc, hrd⟩ :=
      window_resolve c e vk hvm hnm0 (lt_of_le_of_lt hj1 hj2)
    have hin : inSub c e j := ⟨hra ▸ hj1, hrb ▸ hj2⟩
    have hoc : outCell c e s vk j := by
      show iooStep c e s (raS c e vk + (j - raE c e)) = valout
      rw [hrc, hra]
      have harith : nminE c e + vk + (j - nminE c e) = j + vk := by ring
      rw [harith]
      exact hout
    have hnbti : ¬ toInterior c e s vk j := by
      rintro ⟨hnoc, -⟩
      exact hnoc hoc
    have hgate : ocGate c e s vk j := Or.inr hoc
    have hcnd : 0 < alphaE c e vk j ∧ e.point_inside (c.coords j) = true ∧
        ocGate c e s vk j := ⟨hal, hins, hgate⟩
    constructor
    · intro hrep
      constructor
      · simp only [distStep, hk, if_neg hvk, if_pos hin, if_pos hfl]
        rw [if_neg hnbti, if_pos ⟨hcnd, hrep⟩]
      · simp only [flagStep, hk, if_neg hvk, if_pos hin, if_pos hfl]
        rw [if_neg hnbti, if_pos ⟨hcnd, hrep⟩]
    · intro hrep
      constructor
      · simp only [distStep, hk, if_neg hvk, if_pos hin, if_pos hfl]
        rw [if_neg hnbti, if_neg (fun hcc : _ ∧ _ => hrep hcc.2)]
      · simp only [flagStep, hk, if_neg hvk, if_pos hin, if_pos hfl]
        rw [if_neg hnbti, if_neg (fun hcc : _ ∧ _ => hrep hcc.2),
          if_neg hnbti]

theorem segElem_inside_bounds (fl : Bool) (lab : ℤ) (bl ur x : ℚ)
    (h : (segElem fl lab bl ur).point_inside x = true) : bl ≤ x ∧ x ≤ ur := by
  simpa [segElem] using h




unseal Rat.mul Rat.inv Rat.add Rat.sub

theorem spec_C1_witness :
    (distStep c0 eA s1w 1 3 = (valin : ℚ) ∧ flagStep c0 eA s1w 1 3 = valin) ∧
    (distStep c0 eA s1w 1 4 = 7/10 ∧ flagStep c0 eA s1w 1 4 = 5) ∧
    (distStep c0 eA s1w 0 2 = 7/10 ∧ flagStep c0 eA s1w 0 2 = 3) := by
  have hm := spec_C1_solid_merge c0 eA s1w 1 (-1) (by decide) (by decide)
    (by decide) (by decide) (by decide)
  have h0 := spec_C1_solid_merge c0 eA s1w 0 1 (by decide) (by decide)
    (by decide) (by decide) (by decide)
  refine ⟨hm.1 3 (by decide) (by decide) (by decide), ?_, ?_⟩
  · obtain ⟨hd, hf⟩ := (hm.2 4 (by decide) (by decide) (by decide) (by decide)
      (by decide)).1 (by decide)
    exact ⟨hd.trans (by decide), hf.trans (by decide)⟩
  · obtain ⟨hd, hf⟩ := (h0.2 2 (by decide) (by decide) (by decide) (by decide)
      (by decide)).2 (by decide)
    exact ⟨hd.trans (by decide), hf.trans (by decide)⟩



theorem spec_C2_witness :
    iooStep c0 eF s2w 2 = valin ∧
    (distStep c0 eF s2w 0 1 = (valin : ℚ) ∧ flagStep c0 eF s2w 0 1 = valin) ∧
    (distStep c0 eF s2w 0 2 = 9/50 ∧ flagStep c0 eF s2w 0 2 = 9) := by
  have h := spec_C2_fluid_merge c0 eF s2w 0 1 (by decide) (by decide)
    (by decide) (by decide) (by decide)
    (fun x hx => segElem_inside_bounds true 9 (33/100) (21/50) x hx)
    (by decide) (by decide)
  refine ⟨h.1 2 (by decide), ?_, ?_⟩
  · exact h.2.1 1 (by decide) (by decide) (by decide) (by decide)
  · obtain ⟨hd, hf⟩ := (h.2.2 2 (by decide) (by decide) (by decide)
      (by decide) (by decide)).1 (by decide)
    exact ⟨hd.trans (by decide), hf.trans (by decide)⟩

/-! ### Claim C3 -/

/-- C3: Primary-box stamping: for every velocity row whose unique velocity
is nonzero and whose corresponding face label is not the interface
sentinel `-2`, offsets `i = 0 .. |v|-1` from that face receive the
fraction `(i+0.5)/|v|` and the face label at the boundary-adjacent
interior nodes (the written fraction is always strictly below the stored
IN-sentinel, which is the only value present there before stamping); a
face whose label is `-2` is skipped entirely.  In particular for the box
`[0,1]` with `dx = 1/4` and velocities `±1` (layout `c0`, labels 1/2),
the interior node adjacent to each end face carries that face's label and
the distance `1/2`, while interior nodes two or more steps away keep the
IN-sentinel. -/
theorem spec_C3_box_stamping (c : Cfg) (labL labR : ℤ) (k : ℕ) (vk : ℤ)
    (hk : c.uvx[k]? = some vk) (hN : vk.natAbs ≤ c.nloc) :
    ((vk < 0 → labL ≠ -2 → ∀ i : ℤ, 0 ≤ i → i < -vk →
        distInit c labL labR k ((c.vmax : ℤ) + i) =
          ((i : ℚ) + 1/2) / (-(vk : ℚ)) ∧
        flagInit c labL labR k ((c.vmax : ℤ) + i) = labL ∧
        ((i : ℚ) + 1/2) / (-(vk : ℚ)) < (valin : ℚ)) ∧
      (0 < vk → labR ≠ -2 → ∀ i : ℤ, 0 ≤ i → i < vk →
        distInit c labL labR k ((c.vmax : ℤ) + c.nloc - 1 - i) =
          ((i : ℚ) + 1/2) / (vk : ℚ) ∧
        flagInit c labL labR k ((c.vmax : ℤ) + c.nloc - 1 - i) = labR ∧
        ((i : ℚ) + 1/2) / (vk : ℚ) < (valin : ℚ)) ∧
      (vk < 0 → labL = -2 → ∀ j : ℤ,
        distInit c labL labR k j = (valin : ℚ) ∧
        flagInit c labL labR k j = valin) ∧
      (0 < vk → labR = -2 → ∀ j : ℤ,
        distInit c labL labR k j = (valin : ℚ) ∧
        flagInit c labL labR k j = valin)) ∧
    ((distInit c0 1 2 0 4 = 1/2 ∧ flagInit c0 1 2 0 4 = 2) ∧
      (distInit c0 1 2 1 1 = 1/2 ∧ flagInit c0 1 2 1 1 = 1) ∧
      (∀ j : ℤ, 2 ≤ j → j ≤ 3 → ∀ q : ℕ, q ≤ 1 →
        distInit c0 1 2 q j = (valin : ℚ) ∧ flagInit c0 1 2 q j = valin)) := by
  have hfrac : ∀ i v : ℤ, 0 ≤ i → i < v →
      ((i : ℚ) + 1/2) / (v : ℚ) < (valin : ℚ) := by
    intro i v hi hv
    have hv0 : (0 : ℚ) < (v : ℚ) := by exact_mod_cast lt_of_le_of_lt hi hv
    have hnum : ((i : ℚ) + 1/2) < (v : ℚ) := by
      have : (i : ℚ) + 1 ≤ (v : ℚ) := by exact_mod_cast hv
      linarith
    have h1 : ((i : ℚ) + 1/2) / (v : ℚ) < 1 := by
      rw [div_lt_one hv0]
      exact hnum
    have : (1 : ℚ) < (valin : ℚ) := by norm_num [valin]
    linarith
  constructor
  · refine ⟨?_, ?_, ?_, ?_⟩
    · intro hv hL i hi0 hiv
      have hcond : vk < 0 ∧ labL ≠ -2 ∧ (c.vmax : ℤ) ≤ (c.vmax : ℤ) + i ∧
          (c.vmax : ℤ) + i < (c.vmax : ℤ) + -vk := ⟨hv, hL, by omega, by omega⟩
      have hval : ((((c.vmax : ℤ) + i : ℤ) : ℚ) - (c.vmax : ℚ) + 1/2) /
          (-(vk : ℚ)) = ((i : ℚ) + 1/2) / (-(vk : ℚ)) := by
        push_cast
        ring_nf
      refine ⟨?_, ?_, ?_⟩
      · simp only [distInit, hk, if_pos hcond]
        push_cast
        ring_nf
      · simp only [flagInit, hk, if_pos hcond]
      · have := hfrac i (-vk) hi0 (by omega)
        simpa using this
    · intro hv hR i hi0 hiv
      have hcond : 0 < vk ∧ labR ≠ -2 ∧
          (c.vmax : ℤ) + c.nloc - vk ≤ (c.vmax : ℤ) + c.nloc - 1 - i ∧
          (c.vmax : ℤ) + c.nloc - 1 - i < (c.vmax : ℤ) + c.nloc :=
        ⟨hv, hR, by omega, by omega⟩
      have hnofirst : ¬ (vk < 0 ∧ labL ≠ -2 ∧
          (c.vmax : ℤ) ≤ (c.vmax : ℤ) + c.nloc - 1 - i ∧
          (c.vmax : ℤ) + c.nloc - 1 - i < (c.vmax : ℤ) + -vk) := by
        rintro ⟨h1, -, -, -⟩
        omega
      refine ⟨?_, ?_, ?_⟩
      · simp only [distInit, hk, if_neg hnofirst, if_pos hcond]
        push_cast
        ring_nf
      · simp only [flagInit, hk, if_neg hnofirst, if_pos hcond]
      · exact hfrac i vk hi0 hiv
    · intro hv hL j
      have hno1 : ¬ (vk < 0 ∧ labL ≠ -2 ∧ (c.vmax : ℤ) ≤ j ∧
          j < (c.vmax : ℤ) + -vk) := by
        rintro ⟨-, h2, -, -⟩
        exact h2 hL
      have hno2 : ¬ (0 < vk ∧ labR ≠ -2 ∧ (c.vmax : ℤ) + c.nloc - vk ≤ j ∧
          j < (c.vmax : ℤ) + c.nloc) := by
        rintro ⟨h1, -, -, -⟩
        omega
      constructor
      · simp only [distInit, hk, if_neg hno1, if_neg hno2]
      · simp only [flagInit, hk, if_neg hno1, if_neg hno2]
    · intro hv hR j
      have hno1 : ¬ (vk < 0 ∧ labL ≠ -2 ∧ (c.vmax : ℤ) ≤ j ∧
          j < (c.vmax : ℤ) + -vk) := by
        rintro ⟨h1, -, -, -⟩
        omega
      have hno2 : ¬ (0 < vk ∧ labR ≠ -2 ∧ (c.vmax : ℤ) + c.nloc - vk ≤ j ∧
          j < (c.vmax : ℤ) + c.nloc) := by
        rintro ⟨-, h2, -, -⟩
        exact h2 hR
      constructor
      · simp only [distInit, hk, if_neg hno1, if_neg hno2]
      · simp only [flagInit, hk, if_neg hno1, if_neg hno2]
  · refine ⟨⟨by decide, by decide⟩, ⟨by decide, by decide⟩, ?_⟩
    intro j hj1 hj2 q hq
    interval_cases j <;> interval_cases q <;> exact ⟨by decide, by decide⟩

theorem spec_C3_witness :
    distInit c0 1 2 1 (1 + 0) = ((0 : ℚ) + 1/2) / (-((-1 : ℤ) : ℚ)) ∧
    flagInit c0 1 2 1 (1 + 0) = 1 ∧
    distInit c0 (-2) 2 1 3 = (valin : ℚ) := by
  have h := spec_C3_box_stamping c0 1 2 1 (-1) (by decide) (by decide)
  have h2 := spec_C3_box_stamping c0 (-2) 2 1 (-1) (by decide) (by decide)
  obtain ⟨hd, hf, -⟩ := h.1.1 (by decide) (by decide) 0 (by decide) (by decide)
  exact ⟨hd, hf, (h2.1.2.2.1 (by decide) rfl 3).1⟩

/-! ### Claim C10 -/

theorem mem_of_getElemQ {α : Type} {l : List α} {k : ℕ} {a : α}
    (h : l[k]? = some a) : a ∈ l := by
  induction l generalizing k with
  | nil => simp at h
  | cons x xs ih =>
    cases k with
    | zero =>
      simp at h
      simp [h]
    | succ n =>
      rw [List.getElem?_cons_succ] at h
      exact List.mem_cons_of_mem _ (ih h)

/-- C10: After primary-box stamping and before any obstacle fold, every
halo node carries the IN-sentinel 999 in `distance` and `flag` on every
velocity row (box-face crossings are recorded at interior nodes only),
and `in_or_out` is OUT (-1) at every halo node and IN (999) at every
interior node. -/
theorem spec_C10_halo_init (c : Cfg) (labL labR : ℤ)
    (hN : ∀ v ∈ c.uvx, v.natAbs ≤ c.nloc) :
    (∀ k : ℕ, ∀ j : ℤ,
        (0 ≤ j ∧ j < (c.vmax : ℤ)) ∨
          ((c.vmax : ℤ) + c.nloc ≤ j ∧ j < c.size) →
        (addInit c labL labR).distance k j = (valin : ℚ) ∧
        (addInit c labL labR).flag k j = valin ∧
        (addInit c labL labR).in_or_out j = valout) ∧
    (∀ j : ℤ, (c.vmax : ℤ) ≤ j → j < (c.vmax : ℤ) + c.nloc →
        (addInit c labL labR).in_or_out j = valin) := by
  constructor
  · intro k j hj
    have hioo : iooInit c j = valout := by
      unfold iooInit
      rw [if_neg (by omega)]
    refine ⟨?_, ?_, hioo⟩
    · show distInit c labL labR k j = (valin : ℚ)
      cases huv : c.uvx[k]? with
      | none => simp [distInit, huv]
      | some v =>
        have hv := hN v (mem_of_getElemQ huv)
        simp only [distInit, huv]
        rw [if_neg (by omega), if_neg (by omega)]
    · show flagInit c labL labR k j = valin
      cases huv : c.uvx[k]? with
      | none => simp [flagInit, huv]
      | some v =>
        have hv := hN v (mem_of_getElemQ huv)
        simp only [flagInit, huv]
        rw [if_neg (by omega), if_neg (by omega)]
  · intro j hj1 hj2
    show iooInit c j = valin
    unfold iooInit
    rw [if_pos ⟨hj1, hj2⟩]

theorem spec_C10_witness :
    ((addInit c0 1 2).distance 0 0 = (valin : ℚ) ∧
      (addInit c0 1 2).flag 0 0 = valin ∧
      (addInit c0 1 2).in_or_out 0 = valout) ∧
    ((addInit c0 1 2).distance 1 5 = (valin : ℚ) ∧
      (addInit c0 1 2).flag 1 5 = valin ∧
      (addInit c0 1 2).in_or_out 5 = valout) ∧
    (addInit c0 1 2).in_or_out 2 = valin := by
  have h := spec_C10_halo_init c0 1 2 (by decide)
  exact ⟨h.1 0 0 (by decide), h.1 1 5 (by decide),
    h.2 2 (by decide) (by decide)⟩

/-! ### Claim C4 -/

/-- Evaluation of two successive solid folds at a node that is a candidate
for both, starting from the IN-sentinel: the result is the pointwise
minimum, with the flag of the obstacle applied later only when it is
strictly closer. -/
theorem twoSolidFolds (c : Cfg) (e1 e2 : Elem) (s : St) (k : ℕ) (vk j : ℤ)
    (hfl1 : e1.isfluid = false) (hfl2 : e2.isfluid = false)
    (hk : c.uvx[k]? = some vk) (hvk : vk ≠ 0) (hvm : vk.natAbs ≤ c.vmax)
    (hnm1 : 0 ≤ nmaxE c e1) (hj11 : nminE c e1 ≤ j) (hj12 : j < nmaxE c e1)
    (hnm2 : 0 ≤ nmaxE c e2) (hj21 : nminE c e2 ≤ j) (hj22 : j < nmaxE c e2)
    (hins1 : e1.point_inside (c.coords j) = false)
    (hins2 : e2.point_inside (c.coords j) = false)
    (hal1 : 0 < alphaE c e1 vk j) (hal2 : 0 < alphaE c e2 vk j)
    (hub1 : alphaE c e1 vk j ≤ 1) (hub2 : alphaE c e2 vk j ≤ 1)
    (hout : s.in_or_out (j + vk) = valout)
    (hst : s.distance k j = (valin : ℚ)) :
    (addElem c e2 (addElem c e1 s)).distance k j =
      min (alphaE c e1 vk j) (alphaE c e2 vk j) ∧
    (((addElem c e2 (addElem c e1 s)).flag k j = borderE c e1 vk j ∧
        alphaE c e1 vk j ≤ alphaE c e2 vk j) ∨
      ((addElem c e2 (addElem c e1 s)).flag k j = borderE c e2 vk j ∧
        alphaE c e2 vk j ≤ alphaE c e1 vk j)) := by
  have hone : (1 : ℚ) < (valin : ℚ) := by norm_num [valin]
  obtain ⟨hd1, hf1⟩ := solidFoldEval c e1 s k vk j hfl1 hk hvk hvm hnm1
    hj11 hj12 hins1 hal1 (iooStep_keeps_out c e1 s (j + vk) hfl1 hout)
  have hlt1 : alphaE c e1 vk j < s.distance k j := by
    rw [hst]
    linarith
  have hs1d : (addElem c e1 s).distance k j = alphaE c e1 vk j := by
    show distStep c e1 s k j = alphaE c e1 vk j
    rw [hd1, if_pos hlt1]
  have hs1f : (addElem c e1 s).flag k j = borderE c e1 vk j := by
    show flagStep c e1 s k j = borderE c e1 vk j
    rw [hf1, if_pos hlt1]
  have hout1 : (addElem c e1 s).in_or_out (j + vk) = valout :=
    iooStep_keeps_out c e1 s (j + vk) hfl1 hout
  obtain ⟨hd2, hf2⟩ := solidFoldEval c e2 (addElem c e1 s) k vk j hfl2 hk hvk
    hvm hnm2 hj21 hj22 hins2 hal2
    (iooStep_keeps_out c e2 (addElem c e1 s) (j + vk) hfl2 hout1)
  rw [hs1d] at hd2
  rw [hs1d, hs1f] at hf2
  by_cases hcmp : alphaE c e2 vk j < alphaE c e1 vk j
  · rw [if_pos hcmp] at hd2 hf2
    refine ⟨?_, Or.inr ⟨hf2, hcmp.le⟩⟩
    show distStep c e2 (addElem c e1 s) k j = _
    rw [hd2, min_eq_right hcmp.le]
  · rw [if_neg hcmp] at hd2 hf2
    push_neg at hcmp
    refine ⟨?_, Or.inl ⟨hf2, hcmp⟩⟩
    show distStep c e2 (addElem c e1 s) k j = _
    rw [hd2, min_eq_left hcmp]

/-- C4: For two overlapping solid obstacles A and B and a node reachable
by both along a velocity, the final stored distance is
`min(alpha_A, alpha_B)` in either fold order, and the flag is the border
label of an obstacle that produced that minimum. -/
theorem spec_C4_overlap_commute (c : Cfg) (A B : Elem) (s : St) (k : ℕ)
    (vk j : ℤ)
    (hflA : A.isfluid = false) (hflB : B.isfluid = false)
    (hk : c.uvx[k]? = some vk) (hvk : vk ≠ 0) (hvm : vk.natAbs ≤ c.vmax)
    (hnmA : 0 ≤ nmaxE c A) (hjA1 : nminE c A ≤ j) (hjA2 : j < nmaxE c A)
    (hnmB : 0 ≤ nmaxE c B) (hjB1 : nminE c B ≤ j) (hjB2 : j < nmaxE c B)
    (hinsA : A.point_inside (c.coords j) = false)
    (hinsB : B.point_inside (c.coords j) = false)
    (halA : 0 < alphaE c A vk j) (halB : 0 < alphaE c B vk j)
    (hubA : alphaE c A vk j ≤ 1) (hubB : alphaE c B vk j ≤ 1)
    (hout : s.in_or_out (j + vk) = valout)
    (hst : s.distance k j = (valin : ℚ)) :
    ((addElem c B (addElem c A s)).distance k j =
        min (alphaE c A vk j) (alphaE c B vk j) ∧
      (addElem c A (addElem c B s)).distance k j =
        min (alphaE c A vk j) (alphaE c B vk j)) ∧
    (((addElem c B (addElem c A s)).flag k j = borderE c A vk j ∧
        alphaE c A vk j ≤ alphaE c B vk j) ∨
      ((addElem c B (addElem c A s)).flag k j = borderE c B vk j ∧
        alphaE c B vk j ≤ alphaE c A vk j)) ∧
    (((addElem c A (addElem c B s)).flag k j = borderE c A vk j ∧
        alphaE c A vk j ≤ alphaE c B vk j) ∨
      ((addElem c A (addElem c B s)).flag k j = borderE c B vk j ∧
        alphaE c B vk j ≤ alphaE c A vk j)) := by
  obtain ⟨hdAB, hfAB⟩ := twoSolidFolds c A B s k vk j hflA hflB hk hvk hvm
    hnmA hjA1 hjA2 hnmB hjB1 hjB2 hinsA hinsB halA halB hubA hubB hout hst
  obtain ⟨hdBA, hfBA⟩ := twoSolidFolds c B A s k vk j hflB hflA hk hvk hvm
    hnmB hjB1 hjB2 hnmA hjA1 hjA2 hinsB hinsA halB halA hubB hubA hout hst
  rw [min_comm] at hdBA
  exact ⟨⟨hdAB, hdBA⟩, hfAB, hfBA.symm⟩



theorem spec_C4_witness :
    (addElem c0 eB (addElem c0 eA s4w)).distance 0 2 = 1/2 ∧
    (addElem c0 eA (addElem c0 eB s4w)).distance 0 2 = 1/2 ∧
    (addElem c0 eB (addElem c0 eA s4w)).flag 0 2 = 7 ∧
    (addElem c0 eA (addElem c0 eB s4w)).flag 0 2 = 7 := by
  have h := spec_C4_overlap_commute c0 eA eB s4w 0 1 2 (by decide)
    (by decide) (by decide) (by decide) (by decide) (by decide) (by decide)
    (by decide) (by decide) (by decide) (by decide) (by decide) (by decide)
    (by decide) (by decide) (by decide) (by decide) (by decide) (by decide)
  refine ⟨h.1.1.trans (by decide), h.1.2.trans (by decide), ?_, ?_⟩
  · rcases h.2.1 with ⟨hf, hle⟩ | ⟨hf, -⟩
    · exact absurd hle (by decide)
    · exact hf.trans (by decide)
  · rcases h.2.2 with ⟨hf, hle⟩ | ⟨hf, -⟩
    · exact absurd hle (by decide)
    · exact hf.trans (by decide)

/-! ### Claim C5 -/

theorem iooStep_idem (c : Cfg) (e : Elem) (s : St) :
    iooStep c e (addElem c e s) = iooStep c e s := by
  funext t
  by_cases h : inSub c e t ∧ e.point_inside (c.coords t) = true
  · show (if _ then _ else _) = (if _ then _ else _)
    rw [if_pos h, if_pos h]
  · show (if _ then _ else _) = iooStep c e s t
    rw [if_neg h]
    show iooStep c e s t = iooStep c e s t
    rfl

theorem distStep_idem (c : Cfg) (e : Elem) (s : St) (k : ℕ) (j : ℤ)
    (hfl : e.isfluid = false) :
    distStep c e (addElem c e s) k j = distStep c e s k j := by
  have hflb : ¬ (e.isfluid = true) := by simp [hfl]
  cases huv : c.uvx[k]? with
  | none => simp [distStep, addElem, huv]
  | some vk =>
    by_cases hvk : vk = 0
    · simp [distStep, addElem, huv, hvk]
    · by_cases hin : inSub c e j
      · simp only [distStep, huv, if_neg hvk, if_pos hin, if_neg hflb]
        simp only [ocGate, outCell, iooStep_idem]
        by_cases hiA : e.point_inside (c.coords j) = true
        · have hiA' : e.point_inside (c.coords j) ≠ false := by simp [hiA]
          rw [if_neg (fun hcc : (_ ∧ e.point_inside (c.coords j) = false ∧ _)
              ∧ _ => hiA' hcc.1.2.1),
            if_neg (fun hcc : (_ ∧ e.point_inside (c.coords j) = false ∧ _)
              ∧ _ => hiA' hcc.1.2.1),
            if_pos hiA, if_pos hiA]
        · rw [if_neg hiA, if_neg hiA]
          have hD : (addElem c e s).distance k j =
              if (0 < alphaE c e vk j ∧
                  e.point_inside (c.coords j) = false ∧
                  (lenShift c e vk = 0 ∨
                    iooStep c e s (raS c e vk + (j - raE c e)) = valout)) ∧
                  alphaE c e vk j < s.distance k j then alphaE c e vk j
                else s.distance k j := by
            show distStep c e s k j = _
            simp only [distStep, huv, if_neg hvk, if_pos hin, if_neg hflb]
            simp only [ocGate, outCell]
            rw [if_neg hiA]
          by_cases hC : 0 < alphaE c e vk j ∧
              e.point_inside (c.coords j) = false ∧
              (lenShift c e vk = 0 ∨
                iooStep c e s (raS c e vk + (j - raE c e)) = valout)
          · by_cases hlt : alphaE c e vk j < s.distance k j
            · have hE : (addElem c e s).distance k j = alphaE c e vk j := by
                rw [hD, if_pos ⟨hC, hlt⟩]
              rw [hE, if_neg (fun hcc : _ ∧ _ => lt_irrefl _ hcc.2),
                if_pos ⟨hC, hlt⟩]
            · have hE : (addElem c e s).distance k j = s.distance k j := by
                rw [hD, if_neg (fun hcc : _ ∧ _ => hlt hcc.2)]
              rw [hE]
          · have hE : (addElem c e s).distance k j = s.distance k j := by
              rw [hD, if_neg (fun hcc : _ ∧ _ => hC hcc.1)]
            rw [hE]
      · simp [distStep, addElem, huv, hvk, hin]

theorem flagStep_idem (c : Cfg) (e : Elem) (s : St) (k : ℕ) (j : ℤ)
    (hfl : e.isfluid = false) :
    flagStep c e (addElem c e s) k j = flagStep c e s k j := by
  have hflb : ¬ (e.isfluid = true) := by simp [hfl]
  cases huv : c.uvx[k]? with
  | none => simp [flagStep, addElem, huv]
  | some vk =>
    by_cases hvk : vk = 0
    · simp [flagStep, addElem, huv, hvk]
    · by_cases hin : inSub c e j
      · simp only [flagStep, huv, if_neg hvk, if_pos hin, if_neg hflb]
        simp only [ocGate, outCell, iooStep_idem]
        by_cases hiA : e.point_inside (c.coords j) = true
        · have hiA' : e.point_inside (c.coords j) ≠ false := by simp [hiA]
          rw [if_neg (fun hcc : (_ ∧ e.point_inside (c.coords j) = false ∧ _)
              ∧ _ => hiA' hcc.1.2.1),
            if_neg (fun hcc : (_ ∧ e.point_inside (c.coords j) = false ∧ _)
              ∧ _ => hiA' hcc.1.2.1),
            if_pos hiA, if_pos hiA]
        · rw [if_neg hiA, if_neg hiA, if_neg hiA, if_neg hiA]
          have hD : (addElem c e s).distance k j =
              if (0 < alphaE c e vk j ∧
                  e.point_inside (c.coords j) = false ∧
                  (lenShift c e vk = 0 ∨
                    iooStep c e s (raS c e vk + (j - raE c e)) = valout)) ∧
                  alphaE c e vk j < s.distance k j then alphaE c e vk j
                else s.distance k j := by
            show distStep c e s k j = _
            simp only [distStep, huv, if_neg hvk, if_pos hin, if_neg hflb]
            simp only [ocGate, outCell]
            rw [if_neg hiA]
          have hF : (addElem c e s).flag k j =
              if (0 < alphaE c e vk j ∧
                  e.point_inside (c.coords j) = false ∧
                  (lenShift c e vk = 0 ∨
                    iooStep c e s (raS c e vk + (j - raE c e)) = valout)) ∧
                  alphaE c e vk j < s.distance k j then borderE c e vk j
                else s.flag k j := by
            show flagStep c e s k j = _
            simp only [flagStep, huv, if_neg hvk, if_pos hin, if_neg hflb]
            simp only [ocGate, outCell]
            rw [if_neg hiA, if_neg hiA]
          by_cases hC : 0 < alphaE c e vk j ∧
              e.point_inside (c.coords j) = false ∧
              (lenShift c e vk = 0 ∨
                iooStep c e s (raS c e vk + (j - raE c e)) = valout)
          · by_cases hlt : alphaE c e vk j < s.distance k j
            · have hEd : (addElem c e s).distance k j = alphaE c e vk j := by
                rw [hD, if_pos ⟨hC, hlt⟩]
              have hEf : (addElem c e s).flag k j = borderE c e vk j := by
                rw [hF, if_pos ⟨hC, hlt⟩]
              rw [hEd, hEf, if_neg (fun hcc : _ ∧ _ => lt_irrefl _ hcc.2),
                if_pos ⟨hC, hlt⟩]
            · have hEd : (addElem c e s).distance k j = s.distance k j := by
                rw [hD, if_neg (fun hcc : _ ∧ _ => hlt hcc.2)]
              have hEf : (addElem c e s).flag k j = s.flag k j := by
                rw [hF, if_neg (fun hcc : _ ∧ _ => hlt hcc.2)]
              rw [hEd, hEf]
          · have hEd : (addElem c e s).distance k j = s.distance k j := by
              rw [hD, if_neg (fun hcc : _ ∧ _ => hC hcc.1)]
            have hEf : (addElem c e s).flag k j = s.flag k j := by
              rw [hF, if_neg (fun hcc : _ ∧ _ => hC hcc.1)]
            rw [hEd, hEf]
      · simp [flagStep, addElem, huv, hvk, hin]

/-- C5: Folding the same solid obstacle twice in sequence yields exactly
the same `(in_or_out, distance, flag)` state as folding it once (the
faithfulness condition `addElemOkB` excludes the window configurations on
which the real code aborts with a numpy broadcasting error, see C8). -/
theorem spec_C5_solid_idempotent (c : Cfg) (e : Elem) (s : St)
    (hfl : e.isfluid = false) (hok : addElemOkB c e = true) :
    addElem c e (addElem c e s) = addElem c e s := by
  apply St.ext
  · exact iooStep_idem c e s
  · funext k j
    exact distStep_idem c e s k j hfl
  · funext k j
    exact flagStep_idem c e s k j hfl

theorem spec_C5_witness :
    addElem c0 eA (addElem c0 eA s4w) = addElem c0 eA s4w :=
  spec_C5_solid_idempotent c0 eA s4w (by decide) (by decide)

/-! ### Claim C6 -/

/-- C6: Domain construction fails (no grid, none of the three arrays ever
allocated) exactly when the box length over the space step is not an
integer; with an exact integer ratio the error does not occur. -/
theorem spec_C6_config_error (xmin xmax dx : ℚ) (vmax : ℕ) (uvx : List ℤ)
    (labL labR : ℤ) (elems : List Elem) :
    ((globalSizeQ xmin xmax dx).den ≠ 1 →
      domainInit xmin xmax dx vmax uvx labL labR elems = none) ∧
    ((globalSizeQ xmin xmax dx).den = 1 →
      (domainInit xmin xmax dx vmax uvx labL labR elems).isSome = true) := by
  constructor <;> intro h <;> simp [domainInit, h]

theorem spec_C6_witness :
    domainInit 0 1 (3/10) 1 [1, -1] 0 0 [] = none ∧
    (domainInit 0 1 (1/4) 1 [1, -1] 0 0 []).isSome = true :=
  ⟨(spec_C6_config_error 0 1 (3/10) 1 [1, -1] 0 0 []).1 (by decide),
    (spec_C6_config_error 0 1 (1/4) 1 [1, -1] 0 0 []).2 (by decide)⟩

/-! ### Claim C7 -/

/-- C7 (counterexample): with one interior node and the velocity `-2`
(a valid configuration: box `[0,1]`, `dx = 1`, stencil containing `±2`),
the primary-box stamping accesses interior index 1, which is out of range
for the interior axis of length 1 — the original in-bounds claim fails. -/
theorem spec_C7_counterexample :
    (1 : ℤ) ∈ addInitAccessList 1 [-2] ∧ ¬ ((1 : ℤ) < ((1 : ℕ) : ℤ)) := by
  constructor
  · decide
  · decide

theorem pyResolve_bounds (n v : ℤ) (hn : 0 ≤ n) :
    0 ≤ pyResolve n v ∧ pyResolve n v ≤ n := by
  unfold pyResolve
  split_ifs <;> omega

/-- C7 (amended): the halo width on each side equals the stencil's `vmax`
(the interior coordinate array drops `vmax` entries at each end of the
halo array); the windows used during obstacle folding always lie within
the allocated arrays; and all integer-indexed accesses of the primary-box
stamping are in bounds provided every velocity magnitude is at most the
local interior size — the proviso the original claim lacks. -/
theorem spec_C7_amended (c : Cfg)
    (hN : ∀ v ∈ c.uvx, v.natAbs ≤ c.nloc) :
    ((coordsHalo c).length = c.nloc + 2 * c.vmax ∧
      (coordsIn c).length = c.nloc) ∧
    (∀ a ∈ addInitAccessList c.nloc c.uvx, 0 ≤ a ∧ a < (c.nloc : ℤ)) ∧
    (∀ e : Elem,
      (c.vmax : ℤ) ≤ nminE c e ∧ nmaxE c e ≤ (c.vmax : ℤ) + c.nloc ∧
      (∀ vk : ℤ, vk.natAbs ≤ c.vmax →
        0 ≤ nminE c e + vk ∧ nmaxE c e + vk ≤ c.size ∧
        0 ≤ raE c e ∧ rbE c e ≤ c.size ∧
        0 ≤ raS c e vk ∧ rbS c e vk ≤ c.size)) := by
  have hsz : (0 : ℤ) ≤ c.size := by
    show (0 : ℤ) ≤ (c.nloc : ℤ) + 2 * c.vmax
    omega
  have hlen : (coordsHalo c).length = c.nloc + 2 * c.vmax := by
    rw [coordsHalo, List.length_map, List.length_range]
  refine ⟨⟨hlen, ?_⟩, ?_, ?_⟩
  · rw [coordsIn, List.length_drop, List.length_take, hlen]
    omega
  · intro a ha
    rw [addInitAccessList, List.mem_flatten] at ha
    obtain ⟨l', hl', hal⟩ := ha
    obtain ⟨v, hv, hveq⟩ := List.mem_map.mp hl'
    have hvn := hN v hv
    by_cases hvs : v < 0
    · rw [if_pos hvs] at hveq
      subst hveq
      obtain ⟨i, hi, rfl⟩ := List.mem_map.mp hal
      rw [List.mem_range] at hi
      omega
    · rw [if_neg hvs] at hveq
      subst hveq
      obtain ⟨i, hi, rfl⟩ := List.mem_map.mp hal
      rw [List.mem_range] at hi
      omega
  · intro e
    have h1 := vmax_le_nminE c e
    have h2 := nmaxE_le c e
    refine ⟨h1, h2, ?_⟩
    intro vk hvm
    have hsz2 : c.size = (c.nloc : ℤ) + 2 * c.vmax := rfl
    refine ⟨by omega, by omega, ?_, ?_, ?_, ?_⟩
    · exact (pyResolve_bounds c.size (nminE c e) hsz).1
    · exact (pyResolve_bounds c.size (nmaxE c e) hsz).2
    · exact (pyResolve_bounds c.size (nminE c e + vk) hsz).1
    · exact (pyResolve_bounds c.size (nmaxE c e + vk) hsz).2

theorem spec_C7_witness :
    ((coordsHalo c0).length = c0.nloc + 2 * c0.vmax ∧
      (coordsIn c0).length = c0.nloc) ∧
    (0 ≤ nminE c0 eA + 1 ∧ nmaxE c0 eA + 1 ≤ c0.size) := by
  have h := spec_C7_amended c0 (by decide)
  exact ⟨h.1, (h.2.2 eA).2.2 1 (by decide) |>.1,
    ((h.2.2 eA).2.2 1 (by decide)).2.1⟩

/-! ### Claim C8 -/

/-- C8 (code bug): for the solid obstacle `e8`, whose bounding box even
after inflation by the halo width lies wholly to the left of the halo
grid of `c0`, the computed `slice(nmin, nmax)` has a negative raw stop
(`nmaxE = 0` resolved against `nmin = 1` gives an empty sub-box), while
the window shifted by the velocity `-1` resolves through Python's
negative-index wraparound to five nodes: `out_cells` has size 5 against
sub-box masks of size 0, so `np.logical_and(indx, out_cells)` raises a
broadcasting `ValueError` instead of being the no-op the specification
requires. -/
theorem spec_C8_bug_eval :
    e8.ur + (c0.vmax : ℚ) * c0.dx < c0.x0 ∧
    ((-1 : ℤ) ∈ c0.uvx) ∧
    lenSub c0 e8 = 0 ∧ lenShift c0 e8 (-1) = 5 ∧
    addElemOkB c0 e8 = false := by
  refine ⟨by decide, by decide, by decide, by decide, by decide⟩

/-! ### Claim C9 -/

/-- C9 (counterexample): in `dom9` the obstacle label 7 of the thin
segment `e9` is reachable by no velocity ray (it never appears in the
final `flag` arrays), yet `list_of_labels` returns it, so the returned
set is strictly larger than the union the original claim describes. -/
theorem spec_C9_counterexample :
    dom9.isSome = true ∧ reach9 = false ∧
    (7 : ℤ) ∈ listOfLabels [0, 0] [e9] ∧
    ¬ (7 : ℤ) ∈ ([0, 0] : List ℤ) ∧ e9.label = 7 := by
  refine ⟨by decide, by decide, by decide, by decide, by decide⟩

/-- C9 (amended): `list_of_labels` returns exactly the distinct stored
box-face labels together with the labels of all obstacles, whether or not
any velocity ray can reach them. -/
theorem spec_C9_amended (l : ℤ) (boxLabel : List ℤ) (elems : List Elem) :
    l ∈ listOfLabels boxLabel elems ↔
      l ∈ boxLabel ∨ ∃ e ∈ elems, e.label = l := by
  simp [listOfLabels]

theorem spec_C9_witness :
    (7 : ℤ) ∈ listOfLabels [0, 0] [e9] ↔
      (7 : ℤ) ∈ ([0, 0] : List ℤ) ∨ ∃ e ∈ [e9], e.label = (7 : ℤ) :=
  spec_C9_amended 7 [0, 0] [e9]

end PyLBM
